import Mathlib

/-!
A shallow embedding of the Bill Basket application (`src/App.tsx`): the
price-extraction pipeline, the frame preprocessor's binarization, the basket
ledger arithmetic, and the basket add/remove operations. Monetary values and
pixel channel averages are modelled as exact rationals; decimal literals of
the source are written as the equal fractions (`0.50 = 1/2`, `0.08 = 8/100`).
-/

namespace BillBasket

/-- The `Item` interface of `App.tsx` (lines 18-22): `{id, name, price}`. -/
structure Item where
  id : String
  name : String
  price : ℚ
  deriving DecidableEq

/-- `SAMPLE_ITEMS` (lines 24-31). -/
def SAMPLE_ITEMS : List Item :=
  [ { id := "1", name := "Apple", price := 1/2 },
    { id := "2", name := "Banana", price := 3/10 },
    { id := "3", name := "Orange", price := 3/5 },
    { id := "4", name := "Milk", price := 299/100 },
    { id := "5", name := "Bread", price := 199/100 },
    { id := "6", name := "egg", price := 199/100 } ]

/-- `TAX_RATE = 0.08` (line 33). -/
def TAX_RATE : ℚ := 8/100

/-- `const subtotal = basket.reduce((sum, item) => sum + item.price, 0)` (line 59). -/
def subtotal (basket : List Item) : ℚ :=
  basket.foldl (fun sum item => sum + item.price) 0

/-- `const discountAmount = (subtotal * discount) / 100` (line 60). -/
def discountAmount (basket : List Item) (discount : ℚ) : ℚ :=
  subtotal basket * discount / 100

/-- `const taxAmount = (subtotal - discountAmount) * TAX_RATE` (line 61). -/
def taxAmount (basket : List Item) (discount : ℚ) : ℚ :=
  (subtotal basket - discountAmount basket discount) * TAX_RATE

/-- `const totalBill = subtotal - discountAmount + taxAmount` (line 62). -/
def totalBill (basket : List Item) (discount : ℚ) : ℚ :=
  subtotal basket - discountAmount basket discount + taxAmount basket discount

/-- Result record of the Basket Ledger's derived amounts (spec §4.4). -/
structure Totals where
  subtotal : ℚ
  discountAmount : ℚ
  taxAmount : ℚ
  total : ℚ
  deriving DecidableEq

/-- The Basket Ledger chain of `App.tsx` lines 59-62, with the tax rate as a
parameter as in spec §4.4's `computeTotals`; the source instantiates it at
`TAX_RATE`. -/
def computeTotals (items : List Item) (discountPercent taxRate : ℚ) : Totals :=
  let sub := items.foldl (fun sum item => sum + item.price) 0
  let disc := sub * discountPercent / 100
  let tax := (sub - disc) * taxRate
  { subtotal := sub, discountAmount := disc, taxAmount := tax,
    total := sub - disc + tax }

/-! ## The price extractor (lines 36-42 and 82-108) -/

/-- JavaScript's `\s` white-space class as a concrete character list. -/
def jsSpaceChars : List Char :=
  ['\t', '\n', '\x0b', '\x0c', '\r', ' ', '\u00A0', '\u1680',
   '\u2000', '\u2001', '\u2002', '\u2003', '\u2004', '\u2005', '\u2006',
   '\u2007', '\u2008', '\u2009', '\u200A', '\u2028', '\u2029', '\u202F',
   '\u205F', '\u3000', '\uFEFF']

/-- Membership in JavaScript's `\s` class. -/
def jsSpace (c : Char) : Bool := decide (c ∈ jsSpaceChars)

/-- Numeric value of a decimal digit string. -/
def natOfDigits (ds : List Char) : ℕ :=
  ds.foldl (fun n c => 10 * n + (c.toNat - 48)) 0

/-- `parseFloat` applied to a token of shape `digits`, `digits.`, or
`digits.digits` — exactly the shapes produced by the currency patterns'
capture group and by the fallback token scan — modelled as the exact decimal
value (such a parse is never `NaN`). -/
def parseNumToken (tok : List Char) : ℚ :=
  let ds := tok.takeWhile Char.isDigit
  match tok.dropWhile Char.isDigit with
  | '.' :: fs => (natOfDigits ds : ℚ) + (natOfDigits fs : ℚ) / 10 ^ fs.length
  | _ => (natOfDigits ds : ℚ)

/-- One attempt of `\d+(?:\.\d{2})?` anchored at the start of `cs`, returning
the matched characters. `\d` and `\.` are disjoint, so the greedy `\d+` takes
the maximal digit run and the optional `\.\d{2}` part matches exactly when a
dot and two further digits follow. -/
def matchNumAt (cs : List Char) : Option (List Char) :=
  let ds := cs.takeWhile Char.isDigit
  if ds.isEmpty then none
  else
    match cs.dropWhile Char.isDigit with
    | '.' :: a :: b :: _ =>
        if a.isDigit && b.isDigit then some (ds ++ ['.', a, b]) else some ds
    | _ => some ds

/-- One attempt of a full currency pattern anchored at the start of `cs`:
`some c` models `c\s*(\d+(?:\.\d{2})?)` and `none` models the symbol-less
`GENERIC` pattern `(\d+(?:\.\d{2})?)`. Returns the capture group `match[1]`. -/
def matchPatAt (sym : Option Char) (cs : List Char) : Option (List Char) :=
  match sym, cs with
  | none, _ => matchNumAt cs
  | some _, [] => none
  | some s, c :: rest => if c = s then matchNumAt (rest.dropWhile jsSpace) else none

/-- `text.match(pattern)`: the leftmost match — the pattern is attempted at
every start position from left to right, and the first success wins. -/
def findFirstMatch (sym : Option Char) : List Char → Option (List Char)
  | [] => none
  | c :: cs =>
    match matchPatAt sym (c :: cs) with
    | some cap => some cap
    | none => findFirstMatch sym cs

/-- `CURRENCY_PATTERNS` (lines 36-42) in object order `USD, EUR, INR, GBP,
GENERIC`; each pattern is identified by its currency symbol (`none` for the
symbol-less `GENERIC` pattern). -/
def CURRENCY_PATTERNS : List (Option Char) :=
  [some '$', some '€', some '₹', some '£', none]

/-- The four symbol-qualified currency symbols, in pattern priority order. -/
def currencySymbols : List Char := ['$', '€', '₹', '£']

/-- The `for (const pattern of Object.values(CURRENCY_PATTERNS))` loop of
`extractPrice` (lines 84-92): the first pattern that has a match wins and its
capture group is parsed. The capture group is always a nonempty digit string,
so the source's `isNaN` guard never fires and the loop returns right there. -/
def currencyPass : List (Option Char) → List Char → Option ℚ
  | [], _ => none
  | p :: ps, text =>
    match findFirstMatch p text with
    | some cap => some (parseNumToken cap)
    | none => currencyPass ps text

/-- `(l.dropWhile p).length ≤ l.length` (used for termination of the token
scan). -/
theorem dropWhile_length_le {α : Type} (p : α → Bool) (l : List α) :
    (l.dropWhile p).length ≤ l.length := by
  induction l with
  | nil => simp
  | cons a l ih =>
    rw [List.dropWhile_cons]
    split
    · exact le_trans ih (Nat.le_succ _)
    · simp

/-- `text.match(/\d+\.?\d*/g)` (line 95): all maximal numeric tokens, scanned
left to right; a token is a digit run, optionally a dot, then a digit run. -/
def scanTokens : List Char → List (List Char)
  | [] => []
  | c :: cs =>
    if hc : c.isDigit then
      let ds := (c :: cs).takeWhile Char.isDigit
      match h : (c :: cs).dropWhile Char.isDigit with
      | '.' :: r2 =>
          (ds ++ '.' :: r2.takeWhile Char.isDigit) ::
            scanTokens (r2.dropWhile Char.isDigit)
      | r => ds :: scanTokens r
    else scanTokens cs
termination_by l => l.length
decreasing_by
  · have h1 := dropWhile_length_le Char.isDigit (c :: cs)
    rw [h] at h1
    have h2 := dropWhile_length_le Char.isDigit r2
    simp at h1
    simp
    omega
  · rw [List.dropWhile_cons, if_pos hc] at h
    have h1 := dropWhile_length_le Char.isDigit cs
    rw [h] at h1
    simp
    omega
  · simp

/-- The fallback filter `num > 0 && num < 10000` (line 100, the "reasonable
price range"). -/
def priceFilter (num : ℚ) : Bool := decide (num > 0) && decide (num < 10000)

/-- `extractPrice` (lines 82-108): the currency-pattern loop first; if no
pattern matched, the fallback scan for numeric tokens, filtered to the
reasonable price range, returning the first survivor; else `null` (`none`). -/
def extractPrice (text : String) : Option ℚ :=
  match currencyPass CURRENCY_PATTERNS text.data with
  | some price => some price
  | none =>
    match ((scanTokens text.data).map parseNumToken).filter priceFilter with
    | [] => none
    | price :: _ => some price

/-- The result of the currency-pattern pass alone (Step 1 of spec §4.3). -/
def currencyPassResult (text : String) : Option ℚ :=
  currencyPass CURRENCY_PATTERNS text.data

/-! ## The frame preprocessor (lines 186-197 of `captureImage`) -/

/-- One RGBA sample of the canvas `ImageData` buffer (lines 189-190). -/
structure Pixel where
  r : ℕ
  g : ℕ
  b : ℕ
  a : ℕ
  deriving DecidableEq

/-- The per-pixel binarization step (lines 191-196): `avg = (r+g+b)/3`,
`value = avg > 128 ? 255 : 0`, all three colour channels set to `value`, the
alpha channel untouched. -/
def binarizePixel (p : Pixel) : Pixel :=
  let avg : ℚ := ((p.r : ℚ) + p.g + p.b) / 3
  let threshold : ℚ := 128
  let value : ℕ := if avg > threshold then 255 else 0
  { r := value, g := value, b := value, a := p.a }

/-- The whole-frame binarization loop of `captureImage`. -/
def binarizeImage (img : List Pixel) : List Pixel := img.map binarizePixel

/-! ## Manual entry and the basket operations -/

/-- `addItemToBasket` (lines 257-259): `setBasket([...basket, item])`. -/
def addItemToBasket (basket : List Item) (item : Item) : List Item :=
  basket ++ [item]

/-- `removeItemFromBasket` (lines 261-263):
`basket.filter((_, i) => i !== index)`. -/
def removeItemFromBasket (basket : List Item) (index : ℕ) : List Item :=
  (basket.enum.filter (fun p => p.1 != index)).map Prod.snd

/-- The exponent digits of a JavaScript number literal: optional after the
mantissa; an empty digit run contributes nothing (`parseFloat("1e") = 1`). -/
def expDigits (mant : ℚ) (t : List Char) (neg : Bool) : ℚ :=
  let es := t.takeWhile Char.isDigit
  if es.isEmpty then mant
  else if neg then mant / 10 ^ natOfDigits es else mant * 10 ^ natOfDigits es

/-- The signed exponent part after `e`/`E`. -/
def expPart (mant : ℚ) (r : List Char) : ℚ :=
  match r with
  | '-' :: t => expDigits mant t true
  | '+' :: t => expDigits mant t false
  | _ => expDigits mant r false

/-- The optional `e`/`E` exponent suffix of a JavaScript number literal. -/
def applyExponent (mant : ℚ) (cs : List Char) : ℚ :=
  match cs with
  | 'e' :: r => expPart mant r
  | 'E' :: r => expPart mant r
  | _ => mant

/-- The unsigned part of `parseFloat`: integer digits, optional dot and
fraction digits, optional exponent; `none` (`NaN`) when there is no digit at
all. -/
def jsParseUnsigned (cs : List Char) (neg : Bool) : Option ℚ :=
  let ds := cs.takeWhile Char.isDigit
  let cs1 := cs.dropWhile Char.isDigit
  let fsplit : List Char × List Char :=
    match cs1 with
    | '.' :: r => (r.takeWhile Char.isDigit, r.dropWhile Char.isDigit)
    | _ => ([], cs1)
  let fs := fsplit.1
  if ds.isEmpty && fs.isEmpty then none
  else
    let mant := (natOfDigits ds : ℚ) + (natOfDigits fs : ℚ) / 10 ^ fs.length
    let v := applyExponent mant fsplit.2
    some (if neg then -v else v)

/-- The builtin `parseFloat` (used at line 242) modelled for finite decimal
notation: skip leading white space, optional sign, then the longest valid
number prefix; `none` models `NaN`. -/
def jsParseFloat (s : String) : Option ℚ :=
  match s.data.dropWhile jsSpace with
  | '-' :: r => jsParseUnsigned r true
  | '+' :: r => jsParseUnsigned r false
  | cs => jsParseUnsigned cs false

/-- The component state touched by `handleManualPriceSubmit` (lines 46-54). -/
structure AppState where
  basket : List Item
  manualPrice : String
  showManualInput : Bool
  scanError : Option String
  deriving DecidableEq

/-- `handleManualPriceSubmit` (lines 240-255); `now` stands for the
`Date.now().toString()` identifier of the created item. -/
def handleManualPriceSubmit (st : AppState) (now : String) : AppState :=
  match jsParseFloat st.manualPrice with
  | some price =>
    if price > 0 then
      { st with
        basket := addItemToBasket st.basket
          { id := now, name := "Manual Item", price := price },
        manualPrice := "", showManualInput := false, scanError := none }
    else
      { st with scanError := some "Please enter a valid price" }
  | none => { st with scanError := some "Please enter a valid price" }

/-- The items the application ever passes to `addItemToBasket`: a catalog
entry (line 425), a scanned item (lines 153-157), a barcode item with the
placeholder price 9.99 (lines 220-224), or a manual item with a positive
parsed price (lines 243-248). -/
inductive AddSource : Item → Prop where
  | catalog : ∀ {item : Item}, item ∈ SAMPLE_ITEMS → AddSource item
  | scanned : ∀ (now : String) (price : ℚ),
      AddSource { id := now, name := "Scanned Item", price := price }
  | barcode : ∀ (now code : String),
      AddSource { id := now, name := "Item (" ++ code ++ ")", price := 999/100 }
  | manual : ∀ (now : String) (price : ℚ), 0 < price →
      AddSource { id := now, name := "Manual Item", price := price }

/-- Basket states reachable from the empty basket through the application's
add and remove operations. -/
inductive Reachable : List Item → Prop where
  | empty : Reachable []
  | add : ∀ {basket : List Item} {item : Item}, Reachable basket →
      AddSource item → Reachable (addItemToBasket basket item)
  | remove : ∀ {basket : List Item} (index : ℕ), Reachable basket →
      Reachable (removeItemFromBasket basket index)

/-- Reachability as in `Reachable`, but with every add required to carry an
id not already present in the basket. -/
inductive ReachableFresh : List Item → Prop where
  | empty : ReachableFresh []
  | add : ∀ {basket : List Item} {item : Item}, ReachableFresh basket →
      AddSource item → item.id ∉ basket.map Item.id →
      ReachableFresh (addItemToBasket basket item)
  | remove : ∀ {basket : List Item} (index : ℕ), ReachableFresh basket →
      ReachableFresh (removeItemFromBasket basket index)

/-! ## Helper lemmas about the extraction machinery -/

/-- `parseNumToken` on a token that splits as digits, a dot, more digits. -/
theorem parseNumToken_frac (tok ds fs : List Char)
    (h1 : tok.takeWhile Char.isDigit = ds)
    (h2 : tok.dropWhile Char.isDigit = '.' :: fs) :
    parseNumToken tok = (natOfDigits ds : ℚ) + (natOfDigits fs : ℚ) / 10 ^ fs.length := by
  rw [parseNumToken, h1, h2]
  rfl

/-- `parseNumToken` on a token with no fractional part. -/
theorem parseNumToken_int (tok ds : List Char)
    (h1 : tok.takeWhile Char.isDigit = ds)
    (h2 : ∀ fs : List Char, tok.dropWhile Char.isDigit ≠ '.' :: fs) :
    parseNumToken tok = (natOfDigits ds : ℚ) := by
  rw [parseNumToken, h1]
  split
  · exact absurd (by assumption) (h2 _)
  · rfl

/-- A decimal digit is not in JavaScript's white-space class. -/
theorem digit_not_space {c : Char} (h : c.isDigit = true) : jsSpace c = false := by
  rw [jsSpace, decide_eq_false_iff_not]
  intro hmem
  have hall : ∀ x ∈ jsSpaceChars, x.isDigit = false := by decide
  rw [hall c hmem] at h
  cases h

/-- Members of a `dropWhile` are members of the original list. -/
theorem mem_of_mem_dropWhile {p : Char → Bool} {c : Char} {l : List Char}
    (h : c ∈ l.dropWhile p) : c ∈ l := by
  induction l with
  | nil => simp at h
  | cons a t ih =>
    rw [List.dropWhile_cons] at h
    split at h
    · exact List.mem_cons_of_mem _ (ih h)
    · exact h

/-- The element named by `head?` is a member. -/
theorem mem_of_head? {c : Char} {l : List Char} (h : l.head? = some c) : c ∈ l := by
  cases l with
  | nil => cases h
  | cons a t =>
    injection h with h
    subst h
    exact List.mem_cons_self a t

/-- `takeWhile` over a prefix of satisfying elements followed by a
non-satisfying head. -/
theorem takeWhile_append_all {p : Char → Bool} (ds rest : List Char)
    (hds : ∀ c ∈ ds, p c = true)
    (hr : ∀ c, rest.head? = some c → p c = false) :
    (ds ++ rest).takeWhile p = ds := by
  induction ds with
  | nil =>
    cases rest with
    | nil => rfl
    | cons a t => simp [List.takeWhile_cons, hr a rfl]
  | cons d ds ih =>
    simp [List.takeWhile_cons, hds d (List.mem_cons_self d ds),
      ih (fun c hc => hds c (List.mem_cons_of_mem _ hc))]

/-- `dropWhile` over a prefix of satisfying elements followed by a
non-satisfying head. -/
theorem dropWhile_append_all {p : Char → Bool} (ds rest : List Char)
    (hds : ∀ c ∈ ds, p c = true)
    (hr : ∀ c, rest.head? = some c → p c = false) :
    (ds ++ rest).dropWhile p = rest := by
  induction ds with
  | nil =>
    cases rest with
    | nil => rfl
    | cons a t => simp [List.dropWhile_cons, hr a rfl]
  | cons d ds ih =>
    simp [List.dropWhile_cons, hds d (List.mem_cons_self d ds),
      ih (fun c hc => hds c (List.mem_cons_of_mem _ hc))]

/-- `matchNumAt` on a digit run followed by a dot and at least two digits:
the capture is the run, the dot, and exactly two fraction digits. -/
theorem matchNumAt_frac (ds : List Char) (f1 f2 : Char) (rest : List Char)
    (hne : ds ≠ []) (hds : ∀ c ∈ ds, c.isDigit = true)
    (hf1 : f1.isDigit = true) (hf2 : f2.isDigit = true) :
    matchNumAt (ds ++ '.' :: f1 :: f2 :: rest) = some (ds ++ ['.', f1, f2]) := by
  have hr : ∀ c, ('.' :: f1 :: f2 :: rest).head? = some c → c.isDigit = false := by
    intro c hc
    injection hc with hc
    subst hc
    decide
  have ht := takeWhile_append_all ds ('.' :: f1 :: f2 :: rest) hds hr
  have hd := dropWhile_append_all ds ('.' :: f1 :: f2 :: rest) hds hr
  have hemp : ds.isEmpty = false := by
    cases ds with
    | nil => exact absurd rfl hne
    | cons a t => rfl
  simp [matchNumAt, ht, hd, hemp, hf1, hf2]

/-- `matchNumAt` on a pure nonempty digit run captures the whole run. -/
theorem matchNumAt_digits (ds : List Char)
    (hne : ds ≠ []) (hds : ∀ c ∈ ds, c.isDigit = true) :
    matchNumAt ds = some ds := by
  have hr : ∀ c, ([] : List Char).head? = some c → c.isDigit = false := by
    intro c hc
    cases hc
  have ht := takeWhile_append_all ds [] hds hr
  have hd := dropWhile_append_all ds [] hds hr
  rw [List.append_nil] at ht hd
  have hemp : ds.isEmpty = false := by
    cases ds with
    | nil => exact absurd rfl hne
    | cons a t => rfl
  simp [matchNumAt, ht, hd, hemp]

/-- `matchNumAt` fails exactly when the text does not start with a digit. -/
theorem matchNumAt_none (cs : List Char)
    (h : ∀ c, cs.head? = some c → c.isDigit = false) :
    matchNumAt cs = none := by
  cases cs with
  | nil => rfl
  | cons a t => simp [matchNumAt, List.takeWhile_cons, h a rfl]

/-- `matchNumAt` succeeds whenever the text starts with a digit. -/
theorem matchNumAt_isSome (c : Char) (cs : List Char) (h : c.isDigit = true) :
    ∃ cap, matchNumAt (c :: cs) = some cap := by
  have hemp : ((c :: cs).takeWhile Char.isDigit).isEmpty = false := by
    rw [List.takeWhile_cons, if_pos h]
    rfl
  simp only [matchNumAt, hemp, Bool.false_eq_true, if_false]
  split
  · split
    · exact ⟨_, rfl⟩
    · exact ⟨_, rfl⟩
  · exact ⟨_, rfl⟩

/-- A symbol pattern finds no match in text that does not contain its
symbol. -/
theorem findFirstMatch_none_of_not_mem (s : Char) (t : List Char) (h : s ∉ t) :
    findFirstMatch (some s) t = none := by
  induction t with
  | nil => rfl
  | cons c cs ih =>
    have hcs : s ∉ cs := fun hm => h (List.mem_cons_of_mem _ hm)
    have hne : ¬ (c = s) := fun he => h (he ▸ List.mem_cons_self c cs)
    simp [findFirstMatch, matchPatAt, hne, ih hcs]

/-- No pattern finds a match in digit-free text. -/
theorem findFirstMatch_none_of_no_digit (sym : Option Char) (t : List Char)
    (h : ∀ c ∈ t, c.isDigit = false) :
    findFirstMatch sym t = none := by
  induction t with
  | nil => rfl
  | cons c cs ih =>
    have hcs : ∀ x ∈ cs, x.isDigit = false := fun x hx => h x (List.mem_cons_of_mem _ hx)
    have hpat : matchPatAt sym (c :: cs) = none := by
      cases sym with
      | none =>
        refine matchNumAt_none _ ?_
        intro x hx
        injection hx with hx
        subst hx
        exact h _ (List.mem_cons_self _ _)
      | some s =>
        by_cases hcseq : c = s
        · have hdrop : ∀ x, (cs.dropWhile jsSpace).head? = some x → x.isDigit = false := by
            intro x hx
            exact hcs x (mem_of_mem_dropWhile (mem_of_head? hx))
          simp [matchPatAt, hcseq, matchNumAt_none _ hdrop]
        · simp [matchPatAt, hcseq]
    simp [findFirstMatch, hpat, ih hcs]

/-- The generic pattern finds a match as soon as the text has a digit. -/
theorem findFirstMatch_generic_isSome (t : List Char) (c : Char)
    (hc : c ∈ t) (hd : c.isDigit = true) :
    ∃ cap, findFirstMatch none t = some cap := by
  induction t with
  | nil => cases hc
  | cons a cs ih =>
    cases hm : matchPatAt none (a :: cs) with
    | some cap => exact ⟨cap, by simp [findFirstMatch, hm]⟩
    | none =>
      rcases List.mem_cons.mp hc with rfl | hcs
      · obtain ⟨cap, hcap⟩ := matchNumAt_isSome c cs hd
        rw [show matchPatAt none (c :: cs) = matchNumAt (c :: cs) from rfl, hcap] at hm
        cases hm
      · obtain ⟨cap, hcap⟩ := ih hcs
        exact ⟨cap, by simp [findFirstMatch, hm, hcap]⟩

/-- If the whole currency loop failed, every pattern failed. -/
theorem currencyPass_none_elim (ps : List (Option Char)) (t : List Char)
    (h : currencyPass ps t = none) :
    ∀ p ∈ ps, findFirstMatch p t = none := by
  induction ps with
  | nil =>
    intro p hp
    cases hp
  | cons q qs ih =>
    intro p hp
    rw [currencyPass] at h
    cases hm : findFirstMatch q t with
    | some cap =>
      rw [hm] at h
      cases h
    | none =>
      rw [hm] at h
      rcases List.mem_cons.mp hp with rfl | hp2
      · exact hm
      · exact ih h p hp2

/-- If every pattern fails, the currency loop fails. -/
theorem currencyPass_none_intro (ps : List (Option Char)) (t : List Char)
    (h : ∀ p ∈ ps, findFirstMatch p t = none) :
    currencyPass ps t = none := by
  induction ps with
  | nil => rfl
  | cons q qs ih =>
    rw [currencyPass, h q (List.mem_cons_self q qs)]
    exact ih (fun p hp => h p (List.mem_cons_of_mem _ hp))

/-- The fallback token scan finds nothing in digit-free text. -/
theorem scanTokens_nil (t : List Char) (h : ∀ c ∈ t, c.isDigit = false) :
    scanTokens t = [] := by
  induction t with
  | nil => rw [scanTokens]
  | cons c cs ih =>
    have hc := h c (List.mem_cons_self c cs)
    rw [scanTokens]
    simp only [hc, Bool.false_eq_true, dite_false]
    exact ih (fun x hx => h x (List.mem_cons_of_mem _ hx))

/-- The fallback pass never decides a call: `extractPrice` equals the
currency-pattern pass alone, because when even the generic pattern fails the
text has no digit and the fallback scan finds no token either. -/
theorem extractPrice_eq_currencyPassResult (t : String) :
    extractPrice t = currencyPassResult t := by
  rw [extractPrice, currencyPassResult]
  cases hm : currencyPass CURRENCY_PATTERNS t.data with
  | some v => rfl
  | none =>
    have hgen := currencyPass_none_elim _ _ hm none (by simp [CURRENCY_PATTERNS])
    have hnod : ∀ c ∈ t.data, c.isDigit = false := by
      intro c hc
      by_contra hcd
      simp only [Bool.not_eq_false] at hcd
      obtain ⟨cap, hcap⟩ := findFirstMatch_generic_isSome t.data c hc hcd
      rw [hcap] at hgen
      cases hgen
    simp [scanTokens_nil t.data hnod]

/-- `extractPrice` fails exactly on digit-free text. -/
theorem extractPrice_none_iff (t : String) :
    extractPrice t = none ↔ ∀ c ∈ t.data, c.isDigit = false := by
  rw [extractPrice_eq_currencyPassResult, currencyPassResult]
  constructor
  · intro h c hc
    by_contra hcd
    simp only [Bool.not_eq_false] at hcd
    have hgen := currencyPass_none_elim _ _ h none (by simp [CURRENCY_PATTERNS])
    obtain ⟨cap, hcap⟩ := findFirstMatch_generic_isSome t.data c hc hcd
    rw [hcap] at hgen
    cases hgen
  · intro h
    exact currencyPass_none_intro _ _ (fun p hp => findFirstMatch_none_of_no_digit p t.data h)

/-- Master lemma for symbol-led inputs: if the text starts with one of the
four currency symbols, no other symbol occurs in it, and that symbol's
pattern captures `cap`, then `extractPrice` returns the parse of `cap`. -/
theorem extractPrice_symbol (sym : Char) (hsym : sym ∈ currencySymbols)
    (rest cap : List Char)
    (hclean : ∀ s ∈ currencySymbols, s ≠ sym → s ∉ sym :: rest)
    (hm : findFirstMatch (some sym) (sym :: rest) = some cap) :
    extractPrice (String.mk (sym :: rest)) = some (parseNumToken cap) := by
  have hdata : (String.mk (sym :: rest)).data = sym :: rest := rfl
  rw [extractPrice, hdata, CURRENCY_PATTERNS]
  fin_cases hsym
  · simp [currencyPass, hm]
  · have h1 : findFirstMatch (some '$') ('€' :: rest) = none :=
      findFirstMatch_none_of_not_mem _ _ (hclean '$' (by decide) (by decide))
    simp [currencyPass, h1, hm]
  · have h1 : findFirstMatch (some '$') ('₹' :: rest) = none :=
      findFirstMatch_none_of_not_mem _ _ (hclean '$' (by decide) (by decide))
    have h2 : findFirstMatch (some '€') ('₹' :: rest) = none :=
      findFirstMatch_none_of_not_mem _ _ (hclean '€' (by decide) (by decide))
    simp [currencyPass, h1, h2, hm]
  · have h1 : findFirstMatch (some '$') ('£' :: rest) = none :=
      findFirstMatch_none_of_not_mem _ _ (hclean '$' (by decide) (by decide))
    have h2 : findFirstMatch (some '€') ('£' :: rest) = none :=
      findFirstMatch_none_of_not_mem _ _ (hclean '€' (by decide) (by decide))
    have h3 : findFirstMatch (some '₹') ('£' :: rest) = none :=
      findFirstMatch_none_of_not_mem _ _ (hclean '₹' (by decide) (by decide))
    simp [currencyPass, h1, h2, h3, hm]

/-- `reduce((sum, item) => sum + item.price, init)` is `init` plus the sum of
the prices. -/
theorem foldl_add_price (items : List Item) (init : ℚ) :
    items.foldl (fun sum item => sum + item.price) init
      = init + (items.map Item.price).sum := by
  induction items generalizing init with
  | nil => simp
  | cons i t ih => simp [List.foldl_cons, ih, add_assoc]

/-- `removeItemFromBasket` keeps a sublist of the basket. -/
theorem remove_sublist (basket : List Item) (index : ℕ) :
    List.Sublist (removeItemFromBasket basket index) basket := by
  have h1 : List.Sublist (basket.enum.filter (fun p => p.1 != index)) basket.enum :=
    List.filter_sublist _
  have h2 := h1.map Prod.snd
  rw [List.enum_map_snd] at h2
  exact h2

/-- Binarizing one pixel twice equals binarizing it once. -/
theorem binarizePixel_idem (p : Pixel) :
    binarizePixel (binarizePixel p) = binarizePixel p := by
  by_cases h : ((p.r : ℚ) + p.g + p.b) / 3 > 128
  · have h1 : binarizePixel p = { r := 255, g := 255, b := 255, a := p.a } := by
      simp [binarizePixel, h]
    rw [h1]
    simp only [binarizePixel]
    norm_num
  · have h1 : binarizePixel p = { r := 0, g := 0, b := 0, a := p.a } := by
      simp [binarizePixel, h]
    rw [h1]
    simp only [binarizePixel]
    norm_num

/-- `parseFloat("2.50") = 2.5`. -/
theorem jsParseFloat_twofifty : jsParseFloat "2.50" = some (5/2) := by
  have h0 : jsParseFloat "2.50"
      = some ((natOfDigits ['2'] : ℚ)
          + (natOfDigits ['5','0'] : ℚ) / 10 ^ (['5','0'] : List Char).length) := rfl
  rw [h0]
  norm_num [show natOfDigits ['2'] = 2 from by decide,
    show natOfDigits ['5','0'] = 50 from by decide]

/-! ## Claim theorems -/

/-- C7: for every basket, discount percent and tax rate the derived amounts
satisfy `subtotal = sum(price)`, `discountAmount = subtotal*discount/100`,
`taxAmount = (subtotal - discountAmount)*taxRate` and
`total = subtotal - discountAmount + taxAmount`; the source's fixed-rate
chain agrees with `computeTotals` at `TAX_RATE`; and for prices
`[0.50, 0.30]`, discount `10`, tax rate `0.08` the amounts are `0.80`,
`0.08`, `0.0576` and `0.7776`. -/
theorem computeTotals_formulas :
    (∀ (items : List Item) (d r : ℚ),
        (computeTotals items d r).subtotal = (items.map Item.price).sum ∧
        (computeTotals items d r).discountAmount
          = (computeTotals items d r).subtotal * d / 100 ∧
        (computeTotals items d r).taxAmount
          = ((computeTotals items d r).subtotal
              - (computeTotals items d r).discountAmount) * r ∧
        (computeTotals items d r).total
          = (computeTotals items d r).subtotal
              - (computeTotals items d r).discountAmount
              + (computeTotals items d r).taxAmount) ∧
    (∀ (basket : List Item) (d : ℚ),
        subtotal basket = (computeTotals basket d TAX_RATE).subtotal ∧
        discountAmount basket d = (computeTotals basket d TAX_RATE).discountAmount ∧
        taxAmount basket d = (computeTotals basket d TAX_RATE).taxAmount ∧
        totalBill basket d = (computeTotals basket d TAX_RATE).total) ∧
    (subtotal [{ id := "1", name := "Apple", price := 1/2 },
               { id := "2", name := "Banana", price := 3/10 }] = 80/100 ∧
     discountAmount [{ id := "1", name := "Apple", price := 1/2 },
                     { id := "2", name := "Banana", price := 3/10 }] 10 = 8/100 ∧
     taxAmount [{ id := "1", name := "Apple", price := 1/2 },
                { id := "2", name := "Banana", price := 3/10 }] 10 = 576/10000 ∧
     totalBill [{ id := "1", name := "Apple", price := 1/2 },
                { id := "2", name := "Banana", price := 3/10 }] 10 = 7776/10000) := by
  refine ⟨?_, ?_, ?_, ?_, ?_, ?_⟩
  · intro items d r
    refine ⟨?_, rfl, rfl, rfl⟩
    simp [computeTotals, foldl_add_price]
  · intro basket d
    exact ⟨rfl, rfl, rfl, rfl⟩
  · norm_num [subtotal]
  · norm_num [discountAmount, subtotal]
  · norm_num [taxAmount, discountAmount, subtotal, TAX_RATE]
  · norm_num [totalBill, taxAmount, discountAmount, subtotal, TAX_RATE]

/-- C8: the frame preprocessor's binarization is idempotent — applying the
per-pixel threshold rule a second time reproduces the first output pixel for
pixel. -/
theorem binarize_idempotent (img : List Pixel) :
    binarizeImage (binarizeImage img) = binarizeImage img := by
  induction img with
  | nil => rfl
  | cons p t ih =>
    show binarizePixel (binarizePixel p) :: binarizeImage (binarizeImage t)
        = binarizePixel p :: binarizeImage t
    rw [binarizePixel_idem, ih]

/-- C9: submitting a manual price appends exactly one item carrying the
parsed price when the text parses to a strictly positive number, and
otherwise leaves the state unchanged except for the re-prompt error. -/
theorem handleManualPriceSubmit_spec (st : AppState) (now : String) :
    (∀ q : ℚ, jsParseFloat st.manualPrice = some q → 0 < q →
        handleManualPriceSubmit st now =
          { st with
            basket := st.basket ++ [{ id := now, name := "Manual Item", price := q }],
            manualPrice := "", showManualInput := false, scanError := none }) ∧
    ((jsParseFloat st.manualPrice = none ∨
        ∃ q : ℚ, jsParseFloat st.manualPrice = some q ∧ q ≤ 0) →
      handleManualPriceSubmit st now
        = { st with scanError := some "Please enter a valid price" }) := by
  constructor
  · intro q hq hpos
    simp [handleManualPriceSubmit, hq, hpos, addItemToBasket]
  · intro h
    rcases h with hnone | ⟨q, hq, hle⟩
    · simp [handleManualPriceSubmit, hnone]
    · simp [handleManualPriceSubmit, hq, not_lt.mpr hle]

/-- Witness for C9: submitting "2.50" on an empty basket appends the one
manual item priced 2.5. -/
theorem handleManualPriceSubmit_spec_witness :
    handleManualPriceSubmit
        { basket := [], manualPrice := "2.50", showManualInput := true,
          scanError := none } "17"
      = { basket := [{ id := "17", name := "Manual Item", price := 5/2 }],
          manualPrice := "", showManualInput := false, scanError := none } := by
  have h := (handleManualPriceSubmit_spec
      { basket := [], manualPrice := "2.50", showManualInput := true,
        scanError := none } "17").1
      (5/2) jsParseFloat_twofifty (by norm_num)
  simpa using h

/-- C10 counterexample: adding the catalog item "Apple" twice reaches a
basket whose two items share the id "1", so ids are not pairwise distinct in
every reachable basket. -/
theorem duplicate_ids_reachable :
    Reachable [{ id := "1", name := "Apple", price := 1/2 },
               { id := "1", name := "Apple", price := 1/2 }] ∧
      ¬ (([{ id := "1", name := "Apple", price := 1/2 },
           { id := "1", name := "Apple", price := 1/2 }] : List Item).map Item.id).Nodup := by
  constructor
  · have h1 : Reachable [({ id := "1", name := "Apple", price := 1/2 } : Item)] :=
      Reachable.add Reachable.empty (AddSource.catalog (List.mem_cons_self _ _))
    exact Reachable.add h1 (AddSource.catalog (List.mem_cons_self _ _))
  · decide

/-- C10 (amended): when every add carries an id not already in the basket,
all reachable baskets have pairwise distinct ids. -/
theorem reachable_fresh_nodup (basket : List Item) (h : ReachableFresh basket) :
    (basket.map Item.id).Nodup := by
  induction h with
  | empty => simp
  | add hb hsrc hfresh ih =>
    simp only [addItemToBasket, List.map_append]
    rw [List.nodup_append]
    refine ⟨ih, by simp, ?_⟩
    intro x hx hy
    simp only [List.map_cons, List.map_nil, List.mem_cons, List.not_mem_nil,
      or_false] at hy
    subst hy
    exact hfresh hx
  | remove i hb ih => exact ih.sublist ((remove_sublist _ i).map Item.id)

/-- Witness for C10: the singleton basket reached by one fresh catalog add
has distinct ids. -/
theorem reachable_fresh_nodup_witness :
    (([{ id := "1", name := "Apple", price := 1/2 }] : List Item).map Item.id).Nodup :=
  reachable_fresh_nodup _
    (ReachableFresh.add ReachableFresh.empty
      (AddSource.catalog (List.mem_cons_self _ _)) (by decide))

/-- A symbol pattern attempted where the text starts with that symbol. -/
theorem matchPatAt_head (s : Char) (rest : List Char) :
    matchPatAt (some s) (s :: rest) = matchNumAt (rest.dropWhile jsSpace) := by
  simp [matchPatAt]

/-- The leftmost match is the head attempt when that attempt succeeds. -/
theorem findFirstMatch_cons_some (sym : Option Char) (c : Char) (cs cap : List Char)
    (h : matchPatAt sym (c :: cs) = some cap) :
    findFirstMatch sym (c :: cs) = some cap := by
  rw [findFirstMatch, h]

/-- `extractPrice("0.00")` is 0, found by the generic currency pattern. -/
theorem extractPrice_zerozero : extractPrice "0.00" = some 0 := by
  have h0 : extractPrice "0.00" = some (parseNumToken ['0','.','0','0']) := rfl
  rw [h0, parseNumToken_frac _ ['0'] ['0','0'] (by decide) (by decide)]
  norm_num [show natOfDigits ['0'] = 0 from by decide,
    show natOfDigits ['0','0'] = 0 from by decide]

/-- `extractPrice("10000")` is 10000, found by the generic currency pattern. -/
theorem extractPrice_tenthousand : extractPrice "10000" = some 10000 := by
  have h0 : extractPrice "10000" = some (parseNumToken ['1','0','0','0','0']) := rfl
  have h1 : parseNumToken ['1','0','0','0','0'] = (natOfDigits ['1','0','0','0','0'] : ℚ) := rfl
  rw [h0, h1]
  norm_num [show natOfDigits ['1','0','0','0','0'] = 10000 from by decide]

/-- C1: the currency patterns are tried in the fixed priority order
USD, EUR, INR, GBP, GENERIC; the first pattern with any match wins
immediately and the parse of its first (leftmost) match is returned, later
patterns never being consulted; in particular
`extractPrice("$12.50 item #4821") = 12.50`. -/
theorem extractPrice_priority (t : String) :
    (∀ cap, findFirstMatch (some '$') t.data = some cap →
        extractPrice t = some (parseNumToken cap)) ∧
    (findFirstMatch (some '$') t.data = none →
      ∀ cap, findFirstMatch (some '€') t.data = some cap →
        extractPrice t = some (parseNumToken cap)) ∧
    (findFirstMatch (some '$') t.data = none →
      findFirstMatch (some '€') t.data = none →
      ∀ cap, findFirstMatch (some '₹') t.data = some cap →
        extractPrice t = some (parseNumToken cap)) ∧
    (findFirstMatch (some '$') t.data = none →
      findFirstMatch (some '€') t.data = none →
      findFirstMatch (some '₹') t.data = none →
      ∀ cap, findFirstMatch (some '£') t.data = some cap →
        extractPrice t = some (parseNumToken cap)) ∧
    extractPrice "$12.50 item #4821" = some (25/2) := by
  refine ⟨?_, ?_, ?_, ?_, ?_⟩
  · intro cap h
    rw [extractPrice, CURRENCY_PATTERNS]
    simp [currencyPass, h]
  · intro h1 cap h
    rw [extractPrice, CURRENCY_PATTERNS]
    simp [currencyPass, h1, h]
  · intro h1 h2 cap h
    rw [extractPrice, CURRENCY_PATTERNS]
    simp [currencyPass, h1, h2, h]
  · intro h1 h2 h3 cap h
    rw [extractPrice, CURRENCY_PATTERNS]
    simp [currencyPass, h1, h2, h3, h]
  · have h0 : extractPrice "$12.50 item #4821"
        = some (parseNumToken ['1','2','.','5','0']) := rfl
    rw [h0, parseNumToken_frac _ ['1','2'] ['5','0'] (by decide) (by decide)]
    norm_num [show natOfDigits ['1','2'] = 12 from by decide,
      show natOfDigits ['5','0'] = 50 from by decide]

/-- Witness for C1, at the input of the claim's example: the USD pattern
matches `"$12.50 item #4821"` with capture `12.50`, so that parse is
returned. -/
theorem extractPrice_priority_witness :
    extractPrice "$12.50 item #4821" = some (parseNumToken ['1','2','.','5','0']) :=
  (extractPrice_priority "$12.50 item #4821").1 ['1','2','.','5','0'] (by decide)

/-- C2: for every supported currency symbol and every digit string with
exactly two fraction digits, `extractPrice` on the symbol followed by the
digit string returns its decimal value. -/
theorem extractPrice_symbol_decimal (sym : Char) (hsym : sym ∈ currencySymbols)
    (ds fs : List Char) (hne : ds ≠ [])
    (hds : ∀ c ∈ ds, c.isDigit = true)
    (hlen : fs.length = 2) (hfs : ∀ c ∈ fs, c.isDigit = true) :
    extractPrice (String.mk (sym :: (ds ++ '.' :: fs)))
      = some ((natOfDigits ds : ℚ) + (natOfDigits fs : ℚ) / 100) := by
  rcases List.length_eq_two.mp hlen with ⟨f1, f2, rfl⟩
  have hf1 : f1.isDigit = true := hfs f1 (by simp)
  have hf2 : f2.isDigit = true := hfs f2 (by simp)
  have hsymnd : ∀ s ∈ currencySymbols, s.isDigit = false := by decide
  have hsymdot : ∀ s ∈ currencySymbols, ¬ s = '.' := by decide
  have hclean : ∀ s ∈ currencySymbols, s ≠ sym → s ∉ sym :: (ds ++ '.' :: [f1, f2]) := by
    intro s hs hne2 hmem
    rcases List.mem_cons.mp hmem with heq | hmem2
    · exact hne2 heq
    rcases List.mem_append.mp hmem2 with hin | hin
    · have hdig := hds s hin
      rw [hsymnd s hs] at hdig
      cases hdig
    · rcases List.mem_cons.mp hin with heq | hin2
      · exact hsymdot s hs heq
      · have hdig := hfs s hin2
        rw [hsymnd s hs] at hdig
        cases hdig
  have hdot2 : ∀ c, (['.', f1, f2] : List Char).head? = some c → c.isDigit = false := by
    intro c hch
    injection hch with hch
    subst hch
    decide
  have hfm : findFirstMatch (some sym) (sym :: (ds ++ '.' :: [f1, f2]))
      = some (ds ++ ['.', f1, f2]) := by
    cases ds with
    | nil => exact absurd rfl hne
    | cons d dt =>
      have hd : d.isDigit = true := hds d (List.mem_cons_self d dt)
      have hdrop : ((d :: dt) ++ '.' :: [f1, f2]).dropWhile jsSpace
          = (d :: dt) ++ '.' :: [f1, f2] := by
        simp [List.dropWhile_cons, digit_not_space hd]
      have hmn := matchNumAt_frac (d :: dt) f1 f2 [] hne hds hf1 hf2
      have hpat : matchPatAt (some sym) (sym :: ((d :: dt) ++ '.' :: [f1, f2]))
          = some ((d :: dt) ++ ['.', f1, f2]) := by
        rw [matchPatAt_head, hdrop, hmn]
      exact findFirstMatch_cons_some _ _ _ _ hpat
  have hmain := extractPrice_symbol sym hsym (ds ++ '.' :: [f1, f2])
    (ds ++ ['.', f1, f2]) hclean hfm
  rw [hmain]
  have htw := takeWhile_append_all ds ['.', f1, f2] hds hdot2
  have hdw := dropWhile_append_all ds ['.', f1, f2] hds hdot2
  rw [parseNumToken_frac _ ds [f1, f2] htw hdw]
  norm_num

/-- Witness for C2: the EUR pattern on `"€12.50"` yields `12 + 50/100`. -/
theorem extractPrice_symbol_decimal_witness :
    extractPrice (String.mk ('€' :: (['1','2'] ++ '.' :: ['5','0'])))
      = some ((natOfDigits ['1','2'] : ℚ) + (natOfDigits ['5','0'] : ℚ) / 100) :=
  extractPrice_symbol_decimal '€' (by decide) ['1','2'] ['5','0'] (by decide)
    (by decide) rfl (by decide)

/-- C3 counterexample: `extractPrice("0.00")` and `extractPrice("10000")`
do not return NotFound — the generic currency pattern accepts both before
the fallback filter could reject them. -/
theorem fallback_filter_counterexample :
    extractPrice "0.00" = some 0 ∧ extractPrice "10000" = some 10000 :=
  ⟨extractPrice_zerozero, extractPrice_tenthousand⟩

/-- C3 (amended): the fallback filter accepts exactly the values strictly
between 0 and 10000, but the fallback pass never determines any result —
`extractPrice` always equals the currency-pattern pass, whose generic
pattern returns `0.00 ↦ 0` and `10000 ↦ 10000`. -/
theorem fallback_never_decides :
    (∀ t : String, extractPrice t = currencyPassResult t) ∧
    (∀ v : ℚ, priceFilter v = true ↔ 0 < v ∧ v < 10000) ∧
    extractPrice "0.00" = some 0 ∧ extractPrice "10000" = some 10000 := by
  refine ⟨extractPrice_eq_currencyPassResult, ?_, extractPrice_zerozero,
    extractPrice_tenthousand⟩
  intro v
  simp [priceFilter]

/-- C4 counterexample: `"$10000"` is matched by the USD currency pattern
(whose fraction part is optional), so `extractPrice("$10000") = 10000`, not
NotFound; likewise `"$5"` does match the USD pattern, capturing `5`. -/
theorem integer_amount_counterexample :
    extractPrice "$10000" = some 10000 ∧
      findFirstMatch (some '$') ("$5").data = some ['5'] := by
  constructor
  · have h0 : extractPrice "$10000" = some (parseNumToken ['1','0','0','0','0']) := rfl
    have h1 : parseNumToken ['1','0','0','0','0']
        = (natOfDigits ['1','0','0','0','0'] : ℚ) := rfl
    rw [h0, h1]
    norm_num [show natOfDigits ['1','0','0','0','0'] = 10000 from by decide]
  · decide

/-- C4 (amended): an amount with zero fraction digits does match the
symbol's currency pattern, because the `\.\d{2}` part is optional; hence for
every supported symbol S, `extractPrice(S + "5") = 5` and
`extractPrice(S + "10000") = 10000`, both from the currency pass and
without any range check. -/
theorem extractPrice_symbol_integer (sym : Char) (hsym : sym ∈ currencySymbols) :
    findFirstMatch (some sym) (sym :: ['5']) = some ['5'] ∧
    extractPrice (String.mk (sym :: ['5'])) = some 5 ∧
    extractPrice (String.mk (sym :: ['1','0','0','0','0'])) = some 10000 := by
  have hfm5 : findFirstMatch (some sym) (sym :: ['5']) = some ['5'] := by
    have hnum : matchNumAt (List.dropWhile jsSpace ['5']) = some ['5'] := by decide
    simp [findFirstMatch, matchPatAt, hnum]
  have hclean5 : ∀ s ∈ currencySymbols, s ≠ sym → s ∉ sym :: ['5'] := by
    intro s hs hne hmem
    rcases List.mem_cons.mp hmem with heq | hmem2
    · exact hne heq
    · have h5 : s = '5' := by simpa using hmem2
      subst h5
      exact absurd hs (by decide)
  have h5 := extractPrice_symbol sym hsym ['5'] ['5'] hclean5 hfm5
  have hfm10 : findFirstMatch (some sym) (sym :: ['1','0','0','0','0'])
      = some ['1','0','0','0','0'] := by
    have hnum : matchNumAt (List.dropWhile jsSpace ['1','0','0','0','0'])
        = some ['1','0','0','0','0'] := by decide
    simp [findFirstMatch, matchPatAt, hnum]
  have hclean10 : ∀ s ∈ currencySymbols, s ≠ sym → s ∉ sym :: ['1','0','0','0','0'] := by
    intro s hs hne hmem
    rcases List.mem_cons.mp hmem with heq | hmem2
    · exact hne heq
    · have hdig : s = '1' ∨ s = '0' := by simpa using hmem2
      rcases hdig with rfl | rfl
      · exact absurd hs (by decide)
      · exact absurd hs (by decide)
  have h10 := extractPrice_symbol sym hsym ['1','0','0','0','0']
    ['1','0','0','0','0'] hclean10 hfm10
  refine ⟨hfm5, ?_, ?_⟩
  · rw [h5, show parseNumToken ['5'] = (natOfDigits ['5'] : ℚ) from rfl]
    norm_num [show natOfDigits ['5'] = 5 from by decide]
  · rw [h10, show parseNumToken ['1','0','0','0','0']
        = (natOfDigits ['1','0','0','0','0'] : ℚ) from rfl]
    norm_num [show natOfDigits ['1','0','0','0','0'] = 10000 from by decide]

/-- Witness for C4 (amended), at the EUR symbol. -/
theorem extractPrice_symbol_integer_witness :
    extractPrice (String.mk ('€' :: ['5'])) = some 5 :=
  (extractPrice_symbol_integer '€' (by decide)).2.1

/-- C5: `extractPrice("€0.00")` is accepted as 0.00 by the currency pass,
although 0 fails the fallback pass's range filter. -/
theorem euro_zero_accepted :
    extractPrice "€0.00" = some 0 ∧ priceFilter 0 = false := by
  constructor
  · have h0 : extractPrice "€0.00" = some (parseNumToken ['0','.','0','0']) := rfl
    rw [h0, parseNumToken_frac _ ['0'] ['0','0'] (by decide) (by decide)]
    norm_num [show natOfDigits ['0'] = 0 from by decide,
      show natOfDigits ['0','0'] = 0 from by decide]
  · norm_num [priceFilter]

/-- C6: `extractPrice` returns NotFound exactly when the text has no decimal
digit, and on every input the result is that of the currency-pattern pass —
the fallback filter never determines any call's result. -/
theorem extractPrice_none_characterization (t : String) :
    (extractPrice t = none ↔ ∀ c ∈ t.data, c.isDigit = false) ∧
    extractPrice t = currencyPassResult t :=
  ⟨extractPrice_none_iff t, extractPrice_eq_currencyPassResult t⟩

/-- Witness for C6: a digit-free input yields NotFound. -/
theorem extractPrice_none_characterization_witness :
    extractPrice "no digits here" = none :=
  (extractPrice_none_characterization "no digits here").1.mpr (by decide)

end BillBasket
